import Mathlib

/-
Verification development for the repository ingestion pipeline of
Repo_Based_Interviewer (src/app.py and src/fetch_repo_text_files.py).

Strings from the Python sources are modelled as Lean `String` / `List Char`;
raw file bytes are modelled as `List Nat` (each entry a byte value 0..255).
-/

set_option maxRecDepth 4000

/-! ## Generic helpers -/

/-- Last `n` elements of a list (the suffix of length `min n l.length`). -/
def lastN {α : Type} (n : Nat) (l : List α) : List α :=
  l.drop (l.length - n)

/-! ## Extension extraction

`app.py` uses `os.path.splitext(name)[1].lower()`; `fetch_repo_text_files.py`
uses `pathlib.PurePath(rel_path).suffix` lower-cased.  Both return the final
`.ext` part of a file name; they differ only on degenerate names (for example
a name ending in a bare dot), so both are modelled separately. -/

/-- Extension part of `os.path.splitext`: the substring starting at the last
dot of the name, where the run of leading dots of the name never starts an
extension (`.gitignore` has no extension). -/
def splitextExt (name : List Char) : List Char :=
  let lead := name.takeWhile (fun c => c = '.')
  let rest := name.drop lead.length
  let tailNoDot := rest.reverse.takeWhile (fun c => c ≠ '.')
  if tailNoDot.length = rest.length then []
  else '.' :: tailNoDot.reverse

/-- Lower-cased `os.path.splitext(name)[1]` as used in `app.py`. -/
def splitextExtLower (name : String) : String :=
  String.mk ((splitextExt name.data).map Char.toLower)

/-- The `pathlib` `suffix` of a file name: the part from the last dot,
provided that dot is neither the first nor the last character. -/
def pathSuffix (name : List Char) : List Char :=
  let tailNoDot := name.reverse.takeWhile (fun c => c ≠ '.')
  if tailNoDot.length + 1 < name.length ∧ tailNoDot.length ≠ 0 then
    '.' :: tailNoDot.reverse
  else []

/-- Lower-cased `pathlib` suffix as used in `fetch_repo_text_files.py`. -/
def pathSuffixLower (name : String) : String :=
  String.mk ((pathSuffix name.data).map Char.toLower)

/-- Python `str.lower()` on the ASCII names this code handles: lower-case
each character (`Char.toLower` maps the basic latin letters). -/
def strToLower (s : String) : String :=
  String.mk (s.data.map Char.toLower)

/-! ## Constant extension / directory sets (from the sources) -/

/-- `SKIP_EXTENSIONS` of `src/app.py`. -/
def SKIP_EXTENSIONS_APP : List String :=
  [".png", ".jpg", ".jpeg", ".gif", ".bmp", ".svg", ".webp",
   ".ico", ".tiff", ".tif", ".mp3", ".mp4", ".wav", ".avi",
   ".mov", ".zip", ".tar", ".gz", ".rar", ".7z", ".pdf",
   ".exe", ".dll", ".so", ".csv", ".tsv"]

/-- `TEXT_EXTENSIONS` of `src/app.py`. -/
def TEXT_EXTENSIONS : List String :=
  [".txt", ".py", ".md", ".json", ".yaml", ".yml", ".html", ".js", ".jsx", ".ts", ".tsx"]

/-- The directory/file-name denylist checked (lower-cased) inside
`download_recursive` in `src/app.py`. -/
def appDenylistNames : List String := ["node_modules", ".git", "__pycache__"]

/-- `IMAGE_EXTS` of `src/fetch_repo_text_files.py`. -/
def IMAGE_EXTS : List String :=
  [".png", ".jpg", ".jpeg", ".gif", ".bmp", ".svg", ".webp", ".ico", ".tiff", ".tif"]

/-- `SKIP_EXTENSIONS` of `src/fetch_repo_text_files.py`. -/
def SKIP_EXTENSIONS_FETCH : List String :=
  [".exe", ".dll", ".so", ".class", ".jar", ".pyc", ".pyo", ".db", ".sqlite", ".bin"]

/-- `SKIP_DIR_NAMES` of `src/fetch_repo_text_files.py`. -/
def SKIP_DIR_NAMES : List String := ["node_modules", ".git", "__pycache__"]

/-! ## Binary-content heuristic (`is_binary_file`, src/fetch_repo_text_files.py) -/

/-- The byte-counting loop of `is_binary_file`: bytes other than tab (9),
line feed (10), carriage return (13), printable ASCII (32..126) and
bytes ≥ 128 are counted as non-text. -/
def countNonText : List Nat → Nat
  | [] => 0
  | b :: t =>
    if b = 9 ∨ b = 10 ∨ b = 13 then countNonText t
    else if 32 ≤ b ∧ b ≤ 126 then countNonText t
    else if 128 ≤ b then countNonText t
    else countNonText t + 1

/-- `is_binary_file` of `src/fetch_repo_text_files.py`, applied to the byte
sample (the first `TEXT_SAMPLE_SIZE = 4096` bytes of the file).  The source
compares the float `non_text / max(1, len(sample))` against the float literal
`0.30`; for every sample length up to 4096 that comparison gives the same
answer as the exact rational comparison `non_text / len > 3 / 10`, which is
modelled here as `10 * non_text > 3 * len` over `Nat`. -/
def is_binary_file (sample : List Nat) : Bool :=
  if sample.isEmpty then false
  else if sample.contains 0 then true
  else decide (10 * countNonText sample > 3 * max 1 sample.length)

/-- Text-byte predicate written from the claim: horizontal tab, line feed,
carriage return, printable ASCII 0x20..0x7E, or any byte ≥ 0x80. -/
def isTextByteRef (b : Nat) : Bool :=
  decide (b = 9) || decide (b = 10) || decide (b = 13) ||
  (decide (32 ≤ b) && decide (b ≤ 126)) || decide (128 ≤ b)

/-- Reference binary classification written from the claim: an empty sample is
KEEP (`false`); a sample containing a NUL byte is SKIP (`true`); otherwise
SKIP exactly when the fraction of non-text bytes strictly exceeds 0.30. -/
def binary_heuristic_ref (sample : List Nat) : Bool :=
  if sample = [] then false
  else if 0 ∈ sample then true
  else decide (10 * sample.countP (fun b => !isTextByteRef b) > 3 * sample.length)

/-! ## Repository files and the two acquisition strategies (C1) -/

/-- A repository file: the directory segments of its path, its base name and
its raw content bytes. -/
structure RepoFile where
  dirs : List String
  name : String
  content : List Nat

/-- Retention under the recursive-listing strategy (`download_github_repo`
followed by `convert_repo_to_text`, src/app.py): every path component
(lower-cased) must avoid the name denylist, the extension must not be in
`SKIP_EXTENSIONS` (otherwise the file is never downloaded), and
`convert_repo_to_text` contributes the file's text only when the extension is
in `TEXT_EXTENSIONS` or is `.ipynb`. -/
def retained_recursive_strategy (f : RepoFile) : Bool :=
  (f.dirs ++ [f.name]).all (fun seg => !decide (strToLower seg ∈ appDenylistNames)) &&
  !decide (splitextExtLower f.name ∈ SKIP_EXTENSIONS_APP) &&
  (decide (splitextExtLower f.name ∈ TEXT_EXTENSIONS) ||
   decide (splitextExtLower f.name = ".ipynb"))

/-- `should_skip_file` of `src/fetch_repo_text_files.py`: skip when the
lower-cased suffix is an image or skip extension, or when any part of the
relative path (directories or the file name itself) is a denylisted
directory name. -/
def should_skip_file (f : RepoFile) : Bool :=
  decide (pathSuffixLower f.name ∈ IMAGE_EXTS) ||
  decide (pathSuffixLower f.name ∈ SKIP_EXTENSIONS_FETCH) ||
  (f.dirs ++ [f.name]).any (fun part => decide (part ∈ SKIP_DIR_NAMES))

/-- Retention under the archive-download strategy (`fetch_repo`,
src/fetch_repo_text_files.py): `os.walk` prunes denylisted directory names,
`should_skip_file` filters by extension and path parts, and the binary
heuristic applied to the first 4096 content bytes filters the rest. -/
def retained_archive_strategy (f : RepoFile) : Bool :=
  f.dirs.all (fun d => !decide (d ∈ SKIP_DIR_NAMES)) &&
  !(should_skip_file f) &&
  !(is_binary_file (f.content.take 4096))

/-! ## `convert_repo_to_text` (src/app.py, C9) -/

/-- The per-file header that `convert_repo_to_text` (src/app.py) places in
front of a file's content. -/
def fileMarker (name : String) : String :=
  "\n\n===== FILE: " ++ name ++ " =====\n\n"

/-- The file-collection loop of `convert_repo_to_text` (src/app.py), over the
walked files given as (name, content) pairs.  The notebook library that turns
`.ipynb` file content into joined cell text lives outside the repository, so
that conversion is passed in as the function `nb`. -/
def convertEntries (nb : String → String) : List (String × String) → List String
  | [] => []
  | (n, c) :: t =>
    if splitextExtLower n ∈ TEXT_EXTENSIONS then
      (fileMarker n ++ c) :: convertEntries nb t
    else if splitextExtLower n = ".ipynb" then
      (fileMarker n ++ nb c) :: convertEntries nb t
    else convertEntries nb t

/-- `convert_repo_to_text` of `src/app.py`: the combined corpus, the
"\n\n"-joined list of retained file texts. -/
def convert_repo_to_text (nb : String → String) (fs : List (String × String)) : String :=
  String.intercalate "\n\n" (convertEntries nb fs)

/-! ## `flatten_text` (src/app.py, C7) -/

/-- Characters matched by the regex class `[ \t]`. -/
def isSpaceTab (c : Char) : Bool := c = ' ' || c = '\t'

/-- Characters matched by the regex `\n`. -/
def isNewlineChar (c : Char) : Bool := c = '\n'

/-- Whitespace characters stripped by Python `str.strip()` (ASCII range). -/
def isPyWhitespaceChar (c : Char) : Bool :=
  c = ' ' || c = '\t' || c = '\n' || c = '\r' || c = '\x0b' || c = '\x0c'

/-- Semantics of `re.sub(run-of-p, r, text)`: every maximal run of characters
satisfying `p` is replaced by the single character `r`. -/
def collapseRuns (p : Char → Bool) (r : Char) : List Char → List Char
  | [] => []
  | [c] => if p c then [r] else [c]
  | c :: d :: t =>
    if p c then
      (if p d then collapseRuns p r (d :: t) else r :: collapseRuns p r (d :: t))
    else c :: collapseRuns p r (d :: t)

/-- Python `str.strip()` on a character list. -/
def pyStrip (l : List Char) : List Char :=
  ((l.dropWhile isPyWhitespaceChar).reverse.dropWhile isPyWhitespaceChar).reverse

/-- `flatten_text` of `src/app.py`: collapse newline runs, then space/tab
runs, then strip leading and trailing whitespace. -/
def flatten_text (l : List Char) : List Char :=
  pyStrip (collapseRuns isSpaceTab ' ' (collapseRuns isNewlineChar '\n' l))

/-! ## Chunker (C2)

The chunk-splitting in `process_repository` (src/app.py) calls
`RecursiveCharacterTextSplitter` with `chunk_size=400, chunk_overlap=50`;
that splitter is an external library whose source is not part of this
repository, so the Chunker is modelled from the specification. -/

/-- Number of chunks produced for a text of length `L`: one chunk of up to
`M` characters, plus one further chunk for every `M - O` characters of new
content beyond the first chunk. -/
def numChunks (M O L : Nat) : Nat :=
  if L ≤ M then 1 else 1 + (L - M + (M - O) - 1) / (M - O)

/-- Modelled from the spec: the Chunker (`RecursiveCharacterTextSplitter`,
an external library absent from the repository source).  Per the spec, each
chunk holds at most `M` characters and each chunk after the first is prefixed
with the trailing `O` characters of the source text already consumed, so
chunk `i` is the window of up to `M` characters starting at offset
`i * (M - O)` of the text. -/
def chunk_text (M O : Nat) (s : List Nat) : List (List Nat) :=
  (List.range (numChunks M O s.length)).map (fun i => (s.drop (i * (M - O))).take M)

/-! ## Index lifecycle (`initialize_pinecone`, src/app.py, C4 and C5) -/

/-- `INDEX_NAME` of `src/app.py`. -/
def INDEX_NAME : String := "rbi-interview"

/-- The vector-index service state: for each index name, `none` when no index
with that name exists, else the list of upserted chunk texts. -/
def IndexState : Type := String → Option (List String)

/-- `pc.delete_index(n)`. -/
def delete_index (s : IndexState) (n : String) : IndexState :=
  fun m => if m = n then none else s m

/-- `pc.create_index(n, ...)`: a fresh index holds no entries. -/
def create_index (s : IndexState) (n : String) : IndexState :=
  fun m => if m = n then some [] else s m

/-- `retriever.add_texts(chunks)` against index `n`. -/
def upsert_texts (s : IndexState) (n : String) (chunks : List String) : IndexState :=
  fun m => if m = n then some ((s n).getD [] ++ chunks) else s m

/-- `initialize_pinecone` of `src/app.py` as a state transformer: delete the
index when one named `INDEX_NAME` already exists, then create a fresh one. -/
def initialize_pinecone_state (s : IndexState) : IndexState :=
  let s1 := if (s INDEX_NAME).isSome then delete_index s INDEX_NAME else s
  create_index s1 INDEX_NAME

/-- The index-building part of `process_repository` (src/app.py):
`initialize_pinecone()` followed by `retriever.add_texts(chunks)`. -/
def build_index (s : IndexState) (chunks : List String) : IndexState :=
  upsert_texts (initialize_pinecone_state s) INDEX_NAME chunks

/-- The external service calls `initialize_pinecone` can make, plus the
failure the spec prescribes. -/
inductive PCEffect where
  | listIndexes : PCEffect
  | deleteIndex : String → PCEffect
  | sleepSec : Nat → PCEffect
  | createIndex : String → Nat → String → PCEffect
  | describeIndexReady : String → PCEffect
  | failProvisioningTimeout : PCEffect
  | getIndex : String → PCEffect
deriving DecidableEq

/-- Whether an effect is a readiness poll of the index service. -/
def isReadyPoll : PCEffect → Bool
  | PCEffect.describeIndexReady _ => true
  | _ => false

/-- `initialize_pinecone` of `src/app.py` as the exact sequence of service
calls it performs, paired with whether it returns an index handle.
`existing` says whether an index named `INDEX_NAME` already exists; `_ready`
gives the provisioning state of the index over time, which the source never
consults (it only runs fixed `time.sleep(5)` / `time.sleep(30)` delays). -/
def initialize_pinecone_effects (existing : Bool) (_ready : Nat → Bool) :
    List PCEffect × Bool :=
  ([PCEffect.listIndexes]
    ++ (if existing then [PCEffect.deleteIndex INDEX_NAME, PCEffect.sleepSec 5] else [])
    ++ [PCEffect.createIndex INDEX_NAME 384 "dotproduct", PCEffect.sleepSec 30,
        PCEffect.getIndex INDEX_NAME], true)

/-! ## Recursive download (`download_recursive`, src/app.py, C6) -/

mutual

/-- An item of a GitHub directory listing: a file together with the outcome
of fetching its `download_url` (content bytes, or a raised request error), or
a directory with its own listing. -/
inductive GHItem where
  | file : String → Except String (List Nat) → GHItem
  | dir : String → GHList → GHItem

/-- A GitHub directory listing (a list of items, kept as its own inductive so
the traversal below is structurally recursive). -/
inductive GHList where
  | nil : GHList
  | cons : GHItem → GHList → GHList

end

mutual

/-- Processing of one listing item by `download_recursive` (src/app.py):
denylisted names are skipped, skip-extension files are skipped, directories
are recursed into, and a retained file's fetched bytes are saved; a fetch
error is not caught anywhere in the source, so it propagates. -/
def dlItem : GHItem → Except String (List (String × List Nat))
  | GHItem.file name fetched =>
    if strToLower name ∈ appDenylistNames then Except.ok []
    else if splitextExtLower name ∈ SKIP_EXTENSIONS_APP then Except.ok []
    else
      match fetched with
      | Except.error e => Except.error e
      | Except.ok bytes => Except.ok [(name, bytes)]
  | GHItem.dir name children =>
    if strToLower name ∈ appDenylistNames then Except.ok []
    else dlList children

/-- The item loop of `download_recursive` (src/app.py): items are processed
in order; the first uncaught fetch error aborts the whole traversal. -/
def dlList : GHList → Except String (List (String × List Nat))
  | GHList.nil => Except.ok []
  | GHList.cons i t =>
    match dlItem i with
    | Except.error e => Except.error e
    | Except.ok a =>
      match dlList t with
      | Except.error e => Except.error e
      | Except.ok b => Except.ok (a ++ b)

end

/-- `download_github_repo`'s traversal `download_recursive` (src/app.py)
applied to the listing of the repository root. -/
def download_github_repo_run (items : GHList) :
    Except String (List (String × List Nat)) :=
  dlList items

/-! ## Archive download (`get_zip_url` / `fetch_repo`, C8) -/

/-- `get_zip_url` with a branch (src/fetch_repo_text_files.py). -/
def get_zip_url_with_branch (owner repo branch : String) : String :=
  "https://github.com/" ++ owner ++ "/" ++ repo ++ "/archive/refs/heads/" ++
    branch ++ ".zip"

/-- `get_zip_url` without a branch (src/fetch_repo_text_files.py): the pair
of default-branch candidates, master first, then main. -/
def get_zip_url_default (owner repo : String) : String × String :=
  ("https://github.com/" ++ owner ++ "/" ++ repo ++ "/archive/refs/heads/master.zip",
   "https://github.com/" ++ owner ++ "/" ++ repo ++ "/archive/refs/heads/main.zip")

/-- The candidate zip-URL list that `fetch_repo` builds. -/
def zipCandidates (owner repo : String) (branch : Option String) : List String :=
  match branch with
  | some b => [get_zip_url_with_branch owner repo b]
  | none => [(get_zip_url_default owner repo).1, (get_zip_url_default owner repo).2]

/-- The download loop of `fetch_repo` (src/fetch_repo_text_files.py): `ok u`
models whether downloading URL `u` succeeds; the loop stops at the first
successful candidate and raises only after every candidate failed. -/
def downloadLoop (ok : String → Bool) : List String → Except String String
  | [] => Except.error "Failed to download repo zip."
  | z :: t => if ok z then Except.ok z else downloadLoop ok t

/-! ## URL parsing (C10) -/

/-- Python `url.replace(".git", "")` as performed by `download_github_repo`
(src/app.py): every (leftmost, non-overlapping) occurrence of the substring
`.git` anywhere in the string is deleted. -/
def replaceGit : List Char → List Char
  | '.' :: 'g' :: 'i' :: 't' :: t => replaceGit t
  | c :: t => c :: replaceGit t
  | [] => []

/-- The regex match `re.match(r"https://github.com/([^/]+)/([^/]+)", url)`
of `download_github_repo` (src/app.py): the literal prefix, then a non-empty
run of non-slash characters (the owner), a slash, and a second non-empty run
of non-slash characters (the repo); anything may follow. -/
def matchGithubApp (cs : List Char) : Option (String × String) :=
  if cs.take 19 = "https://github.com/".data then
    let rest := cs.drop 19
    let owner := rest.takeWhile (fun c => c ≠ '/')
    if owner.length = 0 then none
    else
      match rest.drop owner.length with
      | '/' :: rest2 =>
        let repo := rest2.takeWhile (fun c => c ≠ '/')
        if repo.length = 0 then none
        else some (String.mk owner, String.mk repo)
      | _ => none
  else none

/-- The URL parsing of `download_github_repo` (src/app.py): delete every
`.git` occurrence, then match owner and repo. -/
def download_github_repo_parse (url : String) : Option (String × String) :=
  matchGithubApp (replaceGit url.data)

/-- Python `str.split('/')` on a character list. -/
def splitOnSlash : List Char → List (List Char)
  | [] => [[]]
  | c :: t =>
    if c = '/' then [] :: splitOnSlash t
    else
      match splitOnSlash t with
      | [] => [[c]]
      | h :: r => (c :: h) :: r

/-- Python `s.removesuffix('.git')`: strip `.git` only when it is a suffix. -/
def removesuffixGit (s : List Char) : List Char :=
  if 4 ≤ s.length ∧ lastN 4 s = ['.', 'g', 'i', 't'] then s.take (s.length - 4) else s

/-- The `https?://github\.com/` prefix of the regex in `parse_github_url`
(src/fetch_repo_text_files.py). -/
def dropGithubHttp (cs : List Char) : Option (List Char) :=
  if cs.take 19 = "https://github.com/".data then some (cs.drop 19)
  else if cs.take 18 = "http://github.com/".data then some (cs.drop 18)
  else none

/-- `parse_github_url` of `src/fetch_repo_text_files.py`: strip the URL,
match `https?://github\.com/([^/]+)/([^/]+)(?:/(.*))?`, take the owner as
group 1, the repo as group 2 with only a trailing `.git` removed, and the
branch from a `tree/<branch>` tail. -/
def parse_github_url (url : String) : Option (String × String × Option String) :=
  match dropGithubHttp (pyStrip url.data) with
  | none => none
  | some rest =>
    let owner := rest.takeWhile (fun c => c ≠ '/')
    if owner.length = 0 then none
    else
      match rest.drop owner.length with
      | '/' :: rest2 =>
        let repo := rest2.takeWhile (fun c => c ≠ '/')
        if repo.length = 0 then none
        else
          let tail :=
            match rest2.drop repo.length with
            | '/' :: t => t
            | _ => []
          let branch :=
            match splitOnSlash tail with
            | p0 :: p1 :: _ => if p0 = "tree".data then some (String.mk p1) else none
            | _ => none
          some (String.mk owner, String.mk (removesuffixGit repo), branch)
      | _ => none

/-! ## Theorems -/

theorem countNonText_eq_countP (l : List Nat) :
    countNonText l = l.countP (fun b => !isTextByteRef b) := by
  induction l with
  | nil => simp [countNonText]
  | cons b t ih =>
    by_cases h1 : b = 9 ∨ b = 10 ∨ b = 13
    · have hb : (!isTextByteRef b) = false := by
        simp [isTextByteRef]
        rcases h1 with h | h | h <;> simp [h]
      simp [countNonText, h1, List.countP_cons, hb, ih]
    · by_cases h2 : 32 ≤ b ∧ b ≤ 126
      · have hb : (!isTextByteRef b) = false := by
          simp [isTextByteRef]
          omega
        simp [countNonText, h1, h2, List.countP_cons, hb, ih]
      · by_cases h3 : 128 ≤ b
        · have hb : (!isTextByteRef b) = false := by
            simp [isTextByteRef]
            omega
          simp [countNonText, h1, h2, h3, List.countP_cons, hb, ih]
        · have hb : (!isTextByteRef b) = true := by
            simp [isTextByteRef]
            omega
          simp [countNonText, h1, h2, h3, List.countP_cons, hb, ih]

/-- C3: the binary-content classification of a byte sample equals the
reference definition: empty sample KEEP; any NUL byte SKIP; otherwise SKIP
if and only if the fraction of bytes that are not tab, line feed, carriage
return, printable ASCII 0x20..0x7E, or ≥ 0x80 strictly exceeds 0.30. -/
theorem C3_binary_classification (sample : List Nat) :
    is_binary_file sample = binary_heuristic_ref sample := by
  unfold is_binary_file binary_heuristic_ref
  by_cases hemp : sample = []
  · simp [hemp]
  · have hne : sample.isEmpty = false := by
      simp [List.isEmpty_iff, hemp]
    have hlen : 1 ≤ sample.length := by
      cases sample with
      | nil => exact absurd rfl hemp
      | cons a t => simp
    have hmax : max 1 sample.length = sample.length := Nat.max_eq_right hlen
    by_cases hz : (0 : Nat) ∈ sample
    · simp [hne, hemp, hz, List.elem_iff]
    · simp [hne, hemp, hz, List.elem_iff, hmax, countNonText_eq_countP]

/-- C4: `build_index` is a full replace: when an index named `INDEX_NAME`
already exists it is deleted and a fresh empty index is created before any
chunk is upserted, so after a rebuild exactly the new chunk set is present
under that name and no entry from a prior build remains. -/
theorem C4_full_replace (s : IndexState) (chunks : List String) :
    initialize_pinecone_state s INDEX_NAME = some [] ∧
    build_index s chunks INDEX_NAME = some chunks := by
  constructor
  · by_cases h : (s INDEX_NAME).isSome <;>
      simp [initialize_pinecone_state, create_index, h]
  · by_cases h : (s INDEX_NAME).isSome <;>
      simp [build_index, upsert_texts, initialize_pinecone_state, create_index, h]

/-- C5 counterexample: with an index already existing and a provisioning
state that never reports ready, `initialize_pinecone` still returns an index
handle, performs no readiness poll, and raises no provisioning-timeout
failure — refuting the claimed poll-until-ready-or-`IndexProvisioningTimeout`
behavior. -/
theorem C5_counterexample :
    (initialize_pinecone_effects true (fun _ => false)).2 = true ∧
    PCEffect.failProvisioningTimeout ∉
      (initialize_pinecone_effects true (fun _ => false)).1 ∧
    (initialize_pinecone_effects true (fun _ => false)).1.all
      (fun e => !isReadyPoll e) = true := by
  refine ⟨rfl, ?_, ?_⟩ <;> decide

/-- C5 amended: before populating the index the builder waits only fixed,
unconditional delays (5 seconds after deleting a pre-existing index,
30 seconds after creating the new one); it never polls the index for
readiness, raises no provisioning-timeout failure, and returns the index
handle regardless of the provisioning state. -/
theorem C5_fixed_sleep_no_poll (r1 r2 : Nat → Bool) (existing : Bool) :
    initialize_pinecone_effects existing r1
      = initialize_pinecone_effects existing r2 ∧
    (initialize_pinecone_effects existing r1).2 = true ∧
    (initialize_pinecone_effects existing r1).1.count (PCEffect.sleepSec 5)
      = (if existing then 1 else 0) ∧
    (initialize_pinecone_effects existing r1).1.count (PCEffect.sleepSec 30) = 1 ∧
    (initialize_pinecone_effects existing r1).1.all (fun e => !isReadyPoll e) = true ∧
    PCEffect.failProvisioningTimeout ∉ (initialize_pinecone_effects existing r1).1 := by
  cases existing <;>
    refine ⟨rfl, rfl, ?_, ?_, ?_, ?_⟩ <;>
    simp only [initialize_pinecone_effects] <;> decide

/-- C9: corpus membership in the recursive-listing pipeline is decided by the
extension allowlist: `convert_repo_to_text` produces exactly the corpus of
the files whose lower-cased extension is in `TEXT_EXTENSIONS` or is
`.ipynb`, so any other file contributes none of its content, whatever its
content and whether or not it matched a skip denylist. -/
theorem C9_allowlist (nb : String → String) (fs : List (String × String)) :
    convert_repo_to_text nb fs
      = convert_repo_to_text nb (fs.filter (fun e =>
          decide (splitextExtLower e.1 ∈ TEXT_EXTENSIONS) ||
          decide (splitextExtLower e.1 = ".ipynb"))) := by
  unfold convert_repo_to_text
  congr 1
  induction fs with
  | nil => rfl
  | cons e t ih =>
    obtain ⟨n, c⟩ := e
    by_cases h1 : splitextExtLower n ∈ TEXT_EXTENSIONS
    · simp [convertEntries, h1, List.filter_cons, ih]
    · by_cases h2 : splitextExtLower n = ".ipynb"
      · simp [convertEntries, h1, h2, List.filter_cons, ih]
      · simp [convertEntries, h1, h2, List.filter_cons, ih]

/-- C10: the recursive-listing strategy's URL parsing deletes every
occurrence of `.git` anywhere in the URL before matching owner and repo, so
for the URL `https://github.com/my.gitops/repo.github` the parsed owner and
repo (`myops`, `repohub`) differ from the URL's path segments; the archive
strategy's `parse_github_url` keeps interior `.git` substrings and strips
only a trailing `.git` from the repo name. -/
theorem C10_git_stripping :
    download_github_repo_parse "https://github.com/my.gitops/repo.github"
      = some ("myops", "repohub") ∧
    (("myops", "repohub") : String × String) ≠ ("my.gitops", "repo.github") ∧
    parse_github_url "https://github.com/my.gitops/repo.github"
      = some ("my.gitops", "repo.github", none) ∧
    parse_github_url "https://github.com/owner/repo.git"
      = some ("owner", "repo", none) ∧
    parse_github_url "https://github.com/owner/re.gito"
      = some ("owner", "re.gito", none) := by
  refine ⟨?_, ?_, ?_, ?_, ?_⟩ <;> decide

/-- C1 counterexample: the plain C source file `main.c` with text content
`int x;` is retained by the archive-download strategy (it matches no denylist
and is not classified binary) but contributes nothing under the
recursive-listing strategy (its extension is outside the allowlist), so the
two acquisition strategies do not retain the same set of files. -/
theorem C1_counterexample :
    retained_recursive_strategy ⟨[], "main.c", [105, 110, 116, 32, 120, 59]⟩ = false ∧
    retained_archive_strategy ⟨[], "main.c", [105, 110, 116, 32, 120, 59]⟩ = true := by
  refine ⟨?_, ?_⟩ <;> decide

theorem lower_notin_denylist {p : String}
    (hp : strToLower p ∉ appDenylistNames) : p ∉ SKIP_DIR_NAMES := by
  intro hmem
  simp only [SKIP_DIR_NAMES, List.mem_cons, List.not_mem_nil, or_false] at hmem
  rcases hmem with h | h | h <;> subst h <;> exact hp (by decide)

theorem text_ext_not_skip_app {e : String} (he : e ∈ TEXT_EXTENSIONS) :
    e ∉ SKIP_EXTENSIONS_APP := by
  simp only [TEXT_EXTENSIONS, List.mem_cons, List.not_mem_nil, or_false] at he
  rcases he with h|h|h|h|h|h|h|h|h|h|h <;> subst h <;> decide

theorem text_ext_not_image {e : String} (he : e ∈ TEXT_EXTENSIONS) :
    e ∉ IMAGE_EXTS := by
  simp only [TEXT_EXTENSIONS, List.mem_cons, List.not_mem_nil, or_false] at he
  rcases he with h|h|h|h|h|h|h|h|h|h|h <;> subst h <;> decide

theorem text_ext_not_skip_fetch {e : String} (he : e ∈ TEXT_EXTENSIONS) :
    e ∉ SKIP_EXTENSIONS_FETCH := by
  simp only [TEXT_EXTENSIONS, List.mem_cons, List.not_mem_nil, or_false] at he
  rcases he with h|h|h|h|h|h|h|h|h|h|h <;> subst h <;> decide

/-- C1 amended: the two acquisition strategies are not functionally
equivalent — the archive strategy also retains non-binary files with
extensions outside the allowlist (see the counterexample) — but they agree
on ordinary allowlisted source files: a file whose path components
(lower-cased) avoid the vendor denylist, whose extension is in
`TEXT_EXTENSIONS` (both extension functions agreeing on its name), and whose
content sample is not classified binary is retained by both strategies. -/
theorem C1_agree_on_allowlisted (f : RepoFile)
    (hdir : ∀ p ∈ f.dirs ++ [f.name], strToLower p ∉ appDenylistNames)
    (hext : splitextExtLower f.name ∈ TEXT_EXTENSIONS)
    (hsfx : pathSuffixLower f.name = splitextExtLower f.name)
    (hbin : is_binary_file (f.content.take 4096) = false) :
    retained_recursive_strategy f = true ∧ retained_archive_strategy f = true := by
  constructor
  · simp only [retained_recursive_strategy, Bool.and_eq_true, Bool.or_eq_true,
      List.all_eq_true, Bool.not_eq_true', decide_eq_false_iff_not, decide_eq_true_eq]
    exact ⟨⟨fun seg hs => hdir seg hs, text_ext_not_skip_app hext⟩, Or.inl hext⟩
  · simp only [retained_archive_strategy, Bool.and_eq_true, List.all_eq_true,
      Bool.not_eq_true', decide_eq_false_iff_not]
    refine ⟨⟨?_, ?_⟩, hbin⟩
    · intro d hd
      exact lower_notin_denylist (hdir d (List.mem_append_left _ hd))
    · simp only [should_skip_file, Bool.or_eq_false_iff, decide_eq_false_iff_not,
        List.any_eq_false, hsfx]
      refine ⟨⟨text_ext_not_image hext, text_ext_not_skip_fetch hext⟩, ?_⟩
      intro part hpart
      simpa using lower_notin_denylist (hdir part hpart)

/-- C1 amended, witnessed at a concrete Python source file. -/
theorem C1_agree_on_allowlisted_witness :
    retained_recursive_strategy ⟨["src"], "main.py", [112, 114, 105, 110, 116]⟩ = true ∧
    retained_archive_strategy ⟨["src"], "main.py", [112, 114, 105, 110, 116]⟩ = true :=
  C1_agree_on_allowlisted ⟨["src"], "main.py", [112, 114, 105, 110, 116]⟩
    (by decide) (by decide) (by decide) (by decide)

/-- C6 counterexample: a root listing whose first file fails to fetch and
whose second file would fetch fine; the recursive-listing traversal aborts
with the fetch error instead of warning, skipping only the failed file and
saving the second one. -/
theorem C6_counterexample :
    download_github_repo_run
        (GHList.cons (GHItem.file "a.py" (Except.error "boom"))
          (GHList.cons (GHItem.file "b.py" (Except.ok [104])) GHList.nil))
      = Except.error "boom" ∧
    download_github_repo_run
        (GHList.cons (GHItem.file "a.py" (Except.error "boom"))
          (GHList.cons (GHItem.file "b.py" (Except.ok [104])) GHList.nil))
      ≠ Except.ok [("b.py", [104])] := by
  refine ⟨rfl, ?_⟩
  intro h
  exact Except.noConfusion h

/-- C6 amended: per-file fetch failures in the recursive-listing strategy are
not caught: the first failing content fetch of a retained (non-denylisted,
non-skip-extension) file aborts the whole traversal with that error,
whatever else the listing contains. -/
theorem C6_fetch_error_aborts (name msg : String) (t : GHList)
    (h1 : strToLower name ∉ appDenylistNames)
    (h2 : splitextExtLower name ∉ SKIP_EXTENSIONS_APP) :
    download_github_repo_run (GHList.cons (GHItem.file name (Except.error msg)) t)
      = Except.error msg := by
  unfold download_github_repo_run
  simp [dlList, dlItem, h1, h2]

/-- C6 amended, witnessed at a single failing file. -/
theorem C6_fetch_error_aborts_witness :
    download_github_repo_run
        (GHList.cons (GHItem.file "x.md" (Except.error "HTTP 500")) GHList.nil)
      = Except.error "HTTP 500" :=
  C6_fetch_error_aborts "x.md" "HTTP 500" GHList.nil (by decide) (by decide)

theorem downloadLoop_eq_find (ok : String → Bool) (l : List String) :
    downloadLoop ok l = match l.find? ok with
      | some u => Except.ok u
      | none => Except.error "Failed to download repo zip." := by
  induction l with
  | nil => rfl
  | cons z t ih =>
    by_cases hz : ok z
    · simp [downloadLoop, List.find?_cons_of_pos, hz]
    · simp [downloadLoop, List.find?_cons_of_neg, hz, ih]

theorem strAppend_assoc (a b c : String) : a ++ b ++ c = a ++ (b ++ c) := by
  apply String.ext
  exact List.append_assoc a.data b.data c.data

/-- C8: when the URL names no branch, the archive fetcher builds the ordered
candidate list (master-branch zip first, then main-branch zip), succeeds
with the first candidate whose download succeeds, and raises a download
failure only after every candidate has failed. -/
theorem C8_branch_fallback (owner repo : String) (ok : String → Bool) :
    zipCandidates owner repo none
      = [get_zip_url_with_branch owner repo "master",
         get_zip_url_with_branch owner repo "main"] ∧
    downloadLoop ok (zipCandidates owner repo none)
      = match (zipCandidates owner repo none).find? ok with
        | some u => Except.ok u
        | none => Except.error "Failed to download repo zip." := by
  refine ⟨?_, downloadLoop_eq_find ok _⟩
  unfold zipCandidates get_zip_url_default get_zip_url_with_branch
  rw [strAppend_assoc _ "master" ".zip", strAppend_assoc _ "main" ".zip",
    strAppend_assoc _ "/archive/refs/heads/" _, strAppend_assoc _ "/archive/refs/heads/" _]
  rw [show ("/archive/refs/heads/" ++ ("master" ++ ".zip") : String)
      = "/archive/refs/heads/master.zip" from by decide]
  rw [show ("/archive/refs/heads/" ++ ("main" ++ ".zip") : String)
      = "/archive/refs/heads/main.zip" from by decide]

theorem mem_dropWhile {p : Char → Bool} :
    ∀ (l : List Char) (x : Char), x ∈ l.dropWhile p → x ∈ l := by
  intro l
  induction l with
  | nil => intro x hx; simp at hx
  | cons c t ih =>
    intro x hx
    by_cases hc : p c
    · simp only [List.dropWhile_cons, hc, if_true] at hx
      exact List.mem_cons_of_mem _ (ih x hx)
    · simp only [List.dropWhile_cons, hc, if_false] at hx
      exact hx

theorem mem_pyStrip (l : List Char) (x : Char) (hx : x ∈ pyStrip l) : x ∈ l := by
  unfold pyStrip at hx
  rw [List.mem_reverse] at hx
  have h1 := mem_dropWhile _ _ hx
  rw [List.mem_reverse] at h1
  exact mem_dropWhile _ _ h1

theorem mem_collapseRuns (p : Char → Bool) (r : Char) :
    ∀ (l : List Char) (x : Char), x ∈ collapseRuns p r l → x = r ∨ p x = false := by
  intro l
  induction l with
  | nil => intro x hx; simp [collapseRuns] at hx
  | cons c t ih =>
    intro x hx
    cases t with
    | nil =>
      by_cases hc : p c
      · simp [collapseRuns, hc] at hx
        exact Or.inl hx
      · simp [collapseRuns, hc] at hx
        subst hx
        exact Or.inr (by simpa using hc)
    | cons d t2 =>
      by_cases hc : p c
      · by_cases hd : p d
        · simp only [collapseRuns, hc, hd, if_true] at hx
          exact ih x hx
        · simp [collapseRuns, hc, hd] at hx
          rcases hx with h | h
          · exact Or.inl h
          · exact ih x h
      · simp [collapseRuns, hc] at hx
        rcases hx with h | h
        · subst h
          exact Or.inr (by simpa using hc)
        · exact ih x h

/-- C7: whitespace normalization collapses every newline run to a single
newline, then every space/tab run to a single space, then trims: on the
spec's example input it yields exactly the expected output, and on every
input no tab character survives normalization (each tab run having been
collapsed into a space). -/
theorem C7_flatten_text :
    flatten_text "line1\n\n\nline2   \t\tline3".data = "line1\nline2 line3".data ∧
    ∀ l : List Char, '\t' ∉ flatten_text l := by
  constructor
  · decide
  · intro l htab
    have h1 : '\t' ∈ collapseRuns isSpaceTab ' ' (collapseRuns isNewlineChar '\n' l) :=
      mem_pyStrip _ _ htab
    rcases mem_collapseRuns _ _ _ _ h1 with h | h
    · exact absurd h (by decide)
    · exact absurd h (by simp [isSpaceTab])

theorem getD_range_map {α : Type} (n : Nat) (f : Nat → α) (d : α) (i : Nat)
    (hi : i < n) : ((List.range n).map f).getD i d = f i := by
  rw [List.getD_eq_getElem?_getD, List.getElem?_map, List.getElem?_range hi]
  rfl

theorem chunk_index_bound {M O L i : Nat} (hO : O < M) (hi : 0 < i)
    (hlen : i < numChunks M O L) : O + i * (M - O) < L := by
  unfold numChunks at hlen
  by_cases hL : L ≤ M
  · simp only [hL, if_true] at hlen
    omega
  · simp only [hL, if_false] at hlen
    have h2 : ((L - M + (M - O) - 1) / (M - O)) * (M - O) ≤ L - M + (M - O) - 1 :=
      Nat.div_mul_le_self _ _
    generalize hq0 : (L - M + (M - O) - 1) / (M - O) = q at hlen h2
    have hq : i ≤ q := by omega
    have h1 : i * (M - O) ≤ q * (M - O) := Nat.mul_le_mul_right _ hq
    have h3 : i * (M - O) ≤ L - M + (M - O) - 1 := le_trans h1 h2
    generalize hk : i * (M - O) = k at h3 ⊢
    omega

/-- C2: in every chunk sequence produced by the Chunker with `max_len = M`
and `overlap = O` (`O < M`), for every index `i > 0` the first `O`
characters of chunk `i` are exactly the last `O` characters of the source
text that precedes chunk `i` (the `O + i * (M - O)` characters consumed
before chunk `i` contributes new content). -/
theorem C2_chunk_overlap (M O : Nat) (s : List Nat) (hO : O < M) (i : Nat)
    (hi : 0 < i) (hlen : i < (chunk_text M O s).length) :
    ((chunk_text M O s).getD i []).take O
      = lastN O (s.take (O + i * (M - O))) := by
  have hnum : (chunk_text M O s).length = numChunks M O s.length := by
    simp [chunk_text]
  rw [hnum] at hlen
  have hbound : O + i * (M - O) < s.length := chunk_index_bound hO hi hlen
  have hget : (chunk_text M O s).getD i [] = (s.drop (i * (M - O))).take M := by
    unfold chunk_text
    exact getD_range_map _ _ _ _ hlen
  rw [hget, List.take_take, Nat.min_eq_left (Nat.le_of_lt hO)]
  unfold lastN
  rw [List.length_take, Nat.min_eq_left (Nat.le_of_lt hbound)]
  have harith : O + i * (M - O) - O = i * (M - O) := by omega
  rw [harith, Nat.add_comm O (i * (M - O))]
  exact List.take_drop (i * (M - O)) O s

/-- C2, witnessed at the spec's scenario: chunking a 1000-character text with
`max_len = 400` and `overlap = 50`, the second chunk's first 50 characters
equal the last 50 characters of the 400 characters that precede it (which
are exactly the first chunk's last 50 characters). -/
theorem C2_chunk_overlap_witness :
    ((chunk_text 400 50 (List.range 1000)).getD 1 []).take 50
      = lastN 50 ((List.range 1000).take (50 + 1 * (400 - 50))) :=
  C2_chunk_overlap 400 50 (List.range 1000) (by decide) 1 (by decide)
    (by simp [chunk_text, numChunks])
